import Mathlib

/-!
Verification of the Brainfish OAS sync action (`index.js`).

The program is a linear pipeline: read a file (`readOASFile`), normalize it
to JSON (`processOASFile`, using `convertYamlToJson` for YAML input), and
upload the result via one multipart POST (`uploadToBrainfish`), with a
top-level handler (`main`) that converts any error into an action failure.

The embedding models JavaScript strings as Lean `String`, JS `undefined`
as `Option.none`, thrown exceptions as `Except String`, and the JSON value
universe as the inductive `JValue` (numbers restricted to integers; the
JSON documents handled by this pipeline are modelled within that fragment).
`JSON.stringify(v, null, 2)` and `JSON.parse` are modelled by executable
functions `jsonStringify` and `jsonParse` below, following the ECMA-404 /
ECMA-262 serialization rules for that fragment.  The external YAML parser
(js-yaml's `load`) is kept abstract: pipeline theorems are parameterized
over an arbitrary load function, and a small concrete model of its
documented behaviour on specific inputs is used for witnesses.
-/

namespace OasSync

/-- Whitespace characters recognized by the JSON grammar. -/
def wsChar (c : Char) : Bool :=
  c = ' ' || c = '\n' || c = '\t' || c = '\r'

/-- Decimal digit test on characters. -/
def isDigitCh (c : Char) : Bool :=
  48 ≤ c.toNat && c.toNat ≤ 57

/-- Decimal digit character for a value below 10. -/
def digChar : Nat → Char
  | 0 => '0' | 1 => '1' | 2 => '2' | 3 => '3' | 4 => '4'
  | 5 => '5' | 6 => '6' | 7 => '7' | 8 => '8' | 9 => '9'
  | _ => '0'

/-- Lower-case hexadecimal digit character for a value below 16. -/
def hexChar : Nat → Char
  | 0 => '0' | 1 => '1' | 2 => '2' | 3 => '3' | 4 => '4'
  | 5 => '5' | 6 => '6' | 7 => '7' | 8 => '8' | 9 => '9'
  | 10 => 'a' | 11 => 'b' | 12 => 'c' | 13 => 'd' | 14 => 'e' | 15 => 'f'
  | _ => '0'

/-- Upper-case hexadecimal digit character for a value below 16. -/
def hexCharUpper : Nat → Char
  | 0 => '0' | 1 => '1' | 2 => '2' | 3 => '3' | 4 => '4'
  | 5 => '5' | 6 => '6' | 7 => '7' | 8 => '8' | 9 => '9'
  | 10 => 'A' | 11 => 'B' | 12 => 'C' | 13 => 'D' | 14 => 'E' | 15 => 'F'
  | _ => '0'

/-- Value of a hexadecimal digit character (either case), if it is one. -/
def hexVal (c : Char) : Option Nat :=
  if 48 ≤ c.toNat && c.toNat ≤ 57 then some (c.toNat - 48)
  else if 97 ≤ c.toNat && c.toNat ≤ 102 then some (c.toNat - 87)
  else if 65 ≤ c.toNat && c.toNat ≤ 70 then some (c.toNat - 55)
  else none

/-- Decimal digit string of a natural number, with explicit fuel
(`natChars` below instantiates the fuel so that it never runs out). -/
def natCharsAux : Nat → Nat → List Char
  | 0, _ => []
  | fuel + 1, n => if n < 10 then [digChar n] else natCharsAux fuel (n / 10) ++ [digChar (n % 10)]

/-- Decimal digit string of a natural number. -/
def natChars (n : Nat) : List Char :=
  natCharsAux (n + 1) n

/-- Decimal character string of an integer, as printed by `JSON.stringify`
for the integral JSON numbers this model covers. -/
def intChars (n : Int) : List Char :=
  if n < 0 then '-' :: natChars n.natAbs else natChars n.toNat

/-- Value of a list of decimal digit characters, accumulator style. -/
def digitsVal : Nat → List Char → Nat
  | acc, [] => acc
  | acc, c :: cs => digitsVal (acc * 10 + (c.toNat - 48)) cs

/-- Splits a character list into its leading run of decimal digits and the rest. -/
def takeDigits : List Char → List Char × List Char
  | [] => ([], [])
  | c :: cs =>
    if isDigitCh c then
      let p := takeDigits cs
      (c :: p.1, p.2)
    else ([], c :: cs)

/-! JSON value trees: the in-memory value universe shared by the YAML and
JSON parsers of the pipeline (JS objects/arrays/strings/numbers/booleans/null,
with numbers restricted to integers in this model). -/
mutual
inductive JValue where
  | null : JValue
  | bool : Bool → JValue
  | num : Int → JValue
  | str : String → JValue
  | arr : JArr → JValue
  | obj : JObj → JValue
deriving DecidableEq

inductive JArr where
  | nil : JArr
  | cons : JValue → JArr → JArr
deriving DecidableEq

inductive JObj where
  | nil : JObj
  | cons : String → JValue → JObj → JObj
deriving DecidableEq
end

/-- Escape of one character inside a JSON string literal, as produced by
`JSON.stringify` (`QuoteJSONString`): quote, backslash, the five short
escapes, `\u00xx` for remaining control characters, all else verbatim. -/
def escChar (c : Char) : List Char :=
  if c = '"' then ['\\', '"']
  else if c = '\\' then ['\\', '\\']
  else if c = '\x08' then ['\\', 'b']
  else if c = '\t' then ['\\', 't']
  else if c = '\n' then ['\\', 'n']
  else if c = '\x0c' then ['\\', 'f']
  else if c = '\r' then ['\\', 'r']
  else if c.toNat < 32 then ['\\', 'u', '0', '0', hexChar (c.toNat / 16), hexChar (c.toNat % 16)]
  else [c]

/-- Escaped body of a JSON string literal. -/
def escList : List Char → List Char
  | [] => []
  | c :: cs => escChar c ++ escList cs

/-- Quoted JSON string literal for a string value or an object key. -/
def quoteChars (s : String) : List Char :=
  '"' :: escList s.data ++ ['"']

/-- Indentation step used by `JSON.stringify(v, null, 2)`: two spaces. -/
def jsonGap : List Char := [' ', ' ']

/-! Serialization of a JSON value with the two-space-indent layout of
`JSON.stringify(v, null, 2)`; `ind` is the current indentation.
`serArr`/`serObj` produce everything after the first element of a
non-empty array/object, up to but excluding the newline before the
closing bracket. -/
mutual
def serJ (ind : List Char) : JValue → List Char
  | .null => "null".data
  | .bool true => "true".data
  | .bool false => "false".data
  | .num n => intChars n
  | .str s => quoteChars s
  | .arr .nil => ['[', ']']
  | .arr (.cons h t) =>
    '[' :: '\n' :: (ind ++ jsonGap) ++ serJ (ind ++ jsonGap) h
      ++ serArr (ind ++ jsonGap) t ++ '\n' :: ind ++ [']']
  | .obj .nil => ['\x7b', '\x7d']
  | .obj (.cons k v t) =>
    '\x7b' :: '\n' :: (ind ++ jsonGap) ++ quoteChars k ++ ':' :: ' ' :: serJ (ind ++ jsonGap) v
      ++ serObj (ind ++ jsonGap) t ++ '\n' :: ind ++ ['\x7d']

def serArr (ind : List Char) : JArr → List Char
  | .nil => []
  | .cons h t => ',' :: '\n' :: ind ++ serJ ind h ++ serArr ind t

def serObj (ind : List Char) : JObj → List Char
  | .nil => []
  | .cons k v t => ',' :: '\n' :: ind ++ quoteChars k ++ ':' :: ' ' :: serJ ind v ++ serObj ind t
end

/-- Model of `JSON.stringify(v, null, 2)` on a defined JSON value. -/
def jsonStringify (v : JValue) : String :=
  String.mk (serJ [] v)

/-- Drops leading JSON whitespace. -/
def skipWs : List Char → List Char
  | [] => []
  | c :: cs => if wsChar c then skipWs cs else c :: cs

/-- Unescaped form of the character following a backslash in a JSON string
literal (other than `u`): the two delimiters, the solidus, and the five
short control escapes. -/
def unescChar (c : Char) : Option Char :=
  if c = '"' then some '"'
  else if c = '\\' then some '\\'
  else if c = '/' then some '/'
  else if c = 'b' then some '\x08'
  else if c = 'f' then some '\x0c'
  else if c = 'n' then some '\n'
  else if c = 'r' then some '\r'
  else if c = 't' then some '\t'
  else none

/-- Parses the body of a JSON string literal after the opening quote,
returning the decoded characters and the input after the closing quote. -/
def parseStrAux : List Char → Option (List Char × List Char)
  | [] => none
  | c :: rest =>
    if c = '"' then some ([], rest)
    else if c = '\\' then
      match rest with
      | [] => none
      | e :: rest2 =>
        if e = 'u' then
          match rest2 with
          | h1 :: h2 :: h3 :: h4 :: rest3 =>
            match hexVal h1, hexVal h2, hexVal h3, hexVal h4 with
            | some a, some b, some c2, some d =>
              let n := ((a * 16 + b) * 16 + c2) * 16 + d
              if n.isValidChar then
                (parseStrAux rest3).map fun p => (Char.ofNat n :: p.1, p.2)
              else none
            | _, _, _, _ => none
          | _ => none
        else
          match unescChar e with
          | some u => (parseStrAux rest2).map fun p => (u :: p.1, p.2)
          | none => none
    else if c.toNat < 32 then none
    else (parseStrAux rest).map fun p => (c :: p.1, p.2)

/-- Parses a JSON number (the integral fragment of this model). -/
def parseNumber : List Char → Option (Int × List Char)
  | [] => none
  | c :: rest =>
    if c = '-' then
      match takeDigits rest with
      | ([], _) => none
      | (ds, r) => some (-(digitsVal 0 ds : Int), r)
    else
      match takeDigits (c :: rest) with
      | ([], _) => none
      | (ds, r) => some ((digitsVal 0 ds : Int), r)

/-- Consumes an expected literal character sequence, yielding the given value. -/
def expectLit (lit : List Char) (cs : List Char) (v : JValue) : Option (JValue × List Char) :=
  match lit, cs with
  | [], rest => some (v, rest)
  | l :: ls, c :: rest => if c = l then expectLit ls rest v else none
  | _ :: _, [] => none

/-- Tests whether a character list starts with the given character. -/
def headIs (l : List Char) (c : Char) : Bool :=
  match l with
  | [] => false
  | x :: _ => x = c

/-! Recursive-descent JSON parser over the value fragment of this model,
with explicit fuel (instantiated generously by `jsonParse`).  `parseVal`
expects its input to start directly at a value; `parseArrTail` parses
an array continuation (`, v`* `]`), `parseObjTail` an object continuation,
`parseMember` one `"key": value` pair. -/
mutual
def parseVal : Nat → List Char → Option (JValue × List Char)
  | 0, _ => none
  | fuel + 1, cs =>
    match cs with
    | [] => none
    | c :: rest =>
      if c = 'n' then expectLit ['u', 'l', 'l'] rest .null
      else if c = 't' then expectLit ['r', 'u', 'e'] rest (.bool true)
      else if c = 'f' then expectLit ['a', 'l', 's', 'e'] rest (.bool false)
      else if c = '"' then (parseStrAux rest).map fun p => (.str (String.mk p.1), p.2)
      else if c = '[' then
        let r := skipWs rest
        if headIs r ']' then some (.arr .nil, r.tail)
        else
          (parseVal fuel r).bind fun p =>
            (parseArrTail fuel p.2).map fun q => (.arr (.cons p.1 q.1), q.2)
      else if c = '\x7b' then
        let r := skipWs rest
        if headIs r '\x7d' then some (.obj .nil, r.tail)
        else
          (parseMember fuel r).bind fun p =>
            (parseObjTail fuel p.2).map fun q => (.obj (.cons p.1.1 p.1.2 q.1), q.2)
      else (parseNumber (c :: rest)).map fun p => (.num p.1, p.2)

def parseArrTail : Nat → List Char → Option (JArr × List Char)
  | 0, _ => none
  | fuel + 1, cs =>
    match skipWs cs with
    | [] => none
    | c :: rest =>
      if c = ',' then
        (parseVal fuel (skipWs rest)).bind fun p =>
          (parseArrTail fuel p.2).map fun q => (JArr.cons p.1 q.1, q.2)
      else if c = ']' then some (.nil, rest)
      else none

def parseMember : Nat → List Char → Option ((String × JValue) × List Char)
  | 0, _ => none
  | fuel + 1, cs =>
    match cs with
    | [] => none
    | c :: rest =>
      if c = '"' then
        (parseStrAux rest).bind fun p =>
          match skipWs p.2 with
          | [] => none
          | c2 :: r3 =>
            if c2 = ':' then
              (parseVal fuel (skipWs r3)).map fun q => ((String.mk p.1, q.1), q.2)
            else none
      else none

def parseObjTail : Nat → List Char → Option (JObj × List Char)
  | 0, _ => none
  | fuel + 1, cs =>
    match skipWs cs with
    | [] => none
    | c :: rest =>
      if c = ',' then
        (parseMember fuel (skipWs rest)).bind fun p =>
          (parseObjTail fuel p.2).map fun q => (JObj.cons p.1.1 p.1.2 q.1, q.2)
      else if c = '\x7d' then some (.nil, rest)
      else none
end

/-- Model of `JSON.parse`: parses a full JSON text (integral-number
fragment), failing on trailing non-whitespace, with an error message in
the style of the JS engine's parser. -/
def jsonParse (s : String) : Except String JValue :=
  match parseVal (s.length + 1) (skipWs s.data) with
  | some (v, rest) =>
    if skipWs rest = [] then .ok v
    else .error "Unexpected non-whitespace character after JSON data"
  | none => .error "Unexpected token in JSON"

/-! Pipeline embedding.  The file system is modelled as a partial map from
paths to text contents, the network as the single `HttpOutcome` the one
request of an invocation would observe, and js-yaml's `load` as an
abstract function from the document text to either a thrown message,
`undefined` (`none`), or a parsed value tree (`some v`). -/

/-- Result type of js-yaml's `load` as used by this model: a thrown parse
error, or `undefined` (for an empty/comments-only stream), or a value tree. -/
abbrev YamlLoad := String → Except String (Option JValue)

/-- ASCII lower-casing of one character (model of the effect of JS
`toLowerCase` on the ASCII extension strings produced by `path.extname`). -/
def lowerChar (c : Char) : Char :=
  if 65 ≤ c.toNat && c.toNat ≤ 90 then Char.ofNat (c.toNat + 32) else c

/-- ASCII lower-casing of a string. -/
def lowerStr (s : String) : String :=
  String.mk (s.data.map lowerChar)

/-- Last path component of a character list (suffix after the last `/`). -/
def lastComponent (l : List Char) : List Char :=
  ((l.reverse).takeWhile (fun c => !(c = '/'))).reverse

/-- Model of Node's `path.basename`: the last component of the path. -/
def basename (p : String) : String :=
  String.mk (lastComponent p.data)

/-- Model of Node's `path.extname`: the suffix of the last path component
from its last `.` (inclusive), or empty when there is no `.` after the
first character of that component. -/
def extname (p : String) : String :=
  let base := lastComponent p.data
  let pre := (base.reverse).takeWhile (fun c => !(c = '.'))
  if pre.length + 1 < base.length then String.mk ('.' :: pre.reverse) else ""

/-- Suffix test on character lists. -/
def endsWithL (l suff : List Char) : Bool :=
  l.reverse.take suff.length == suff.reverse

/-- The FileRecord of the spec: metadata and raw text captured by the
File Loader (`readOASFile` in the source). -/
structure FileData where
  content : String
  extension : String
  fileName : String
  size : Nat
deriving DecidableEq, Repr

/-- Model of `readOASFile`: fails when the path does not resolve to a
file, otherwise captures content, lower-cased extension, base name, size. -/
def readOASFile (fs : String → Option String) (filePath : String) : Except String FileData :=
  match fs filePath with
  | none => .error ("OAS file not found at path: " ++ filePath)
  | some content =>
    .ok { content := content
          extension := lowerStr (extname filePath)
          fileName := basename filePath
          size := content.utf8ByteSize }

/-- Model of `convertYamlToJson`: runs the YAML parser and stringifies the
result.  When the parser yields `undefined` (`none`), `JSON.stringify`
returns `undefined`, hence the `Option String` result; a thrown parser
error is wrapped in the `Failed to parse YAML content` message. -/
def convertYamlToJson (load : YamlLoad) (yamlContent : String) : Except String (Option String) :=
  match load yamlContent with
  | .ok parsedYaml => .ok (parsedYaml.map jsonStringify)
  | .error msg => .error ("Failed to parse YAML content: " ++ msg)

/-- Model of the regex rewrite `fileName.replace(/\.(yaml|yml)$/, '.json')`:
a case-sensitive suffix replacement. -/
def replaceYamlExt (fileName : String) : String :=
  let l := fileName.data
  if endsWithL l ".yaml".data then String.mk (l.take (l.length - 5) ++ ".json".data)
  else if endsWithL l ".yml".data then String.mk (l.take (l.length - 4) ++ ".json".data)
  else fileName

/-- The NormalizedPayload of the spec, as the source builds it: the
FileRecord fields plus the processed content (`none` models the JS
`undefined` produced for a YAML stream with no document) and the output
file name. -/
structure ProcessedFile where
  content : String
  extension : String
  fileName : String
  size : Nat
  processedContent : Option String
  processedFileName : String
deriving DecidableEq, Repr

/-- Model of `processOASFile`: dispatch on the captured extension —
YAML conversion with filename rewrite, JSON validity check with verbatim
pass-through, or rejection of unsupported formats. -/
def processOASFile (load : YamlLoad) (fileData : FileData) : Except String ProcessedFile :=
  if fileData.extension = ".yaml" || fileData.extension = ".yml" then
    (convertYamlToJson load fileData.content).map fun pc =>
      { content := fileData.content, extension := fileData.extension
        fileName := fileData.fileName, size := fileData.size
        processedContent := pc
        processedFileName := replaceYamlExt fileData.fileName }
  else if fileData.extension = ".json" then
    match jsonParse fileData.content with
    | .ok _ =>
      .ok { content := fileData.content, extension := fileData.extension
            fileName := fileData.fileName, size := fileData.size
            processedContent := some fileData.content
            processedFileName := fileData.fileName }
    | .error msg => .error ("Invalid JSON format: " ++ msg)
  else
    .error ("Unsupported file format: " ++ fileData.extension ++ ". Supported formats: .yaml, .yml, .json")

/-- UTF-8 encoding of one character. -/
def utf8Bytes (c : Char) : List UInt8 :=
  let n := c.toNat
  if n < 128 then [UInt8.ofNat n]
  else if n < 2048 then
    [UInt8.ofNat (192 + n / 64), UInt8.ofNat (128 + n % 64)]
  else if n < 65536 then
    [UInt8.ofNat (224 + n / 4096), UInt8.ofNat (128 + n / 64 % 64), UInt8.ofNat (128 + n % 64)]
  else
    [UInt8.ofNat (240 + n / 262144), UInt8.ofNat (128 + n / 4096 % 64),
     UInt8.ofNat (128 + n / 64 % 64), UInt8.ofNat (128 + n % 64)]

/-- UTF-8 bytes of a string (model of `Buffer.from(s, 'utf8')`). -/
def strBytes (s : String) : List UInt8 :=
  s.data.flatMap utf8Bytes

/-- Characters that `encodeURIComponent` leaves unescaped. -/
def uriUnreserved (c : Char) : Bool :=
  (48 ≤ c.toNat && c.toNat ≤ 57) || (65 ≤ c.toNat && c.toNat ≤ 90) || (97 ≤ c.toNat && c.toNat ≤ 122)
    || c = '-' || c = '_' || c = '.' || c = '!' || c = '~' || c = '*' || c = '\'' || c = '(' || c = ')'

/-- Percent-encoding of one byte. -/
def pctByte (b : UInt8) : List Char :=
  ['%', hexCharUpper (b.toNat / 16), hexCharUpper (b.toNat % 16)]

/-- Model of JS `encodeURIComponent`: unreserved characters verbatim,
everything else as percent-encoded UTF-8 bytes. -/
def encodeURIComponent (s : String) : String :=
  String.mk (s.data.flatMap fun c =>
    if uriUnreserved c then [c] else (utf8Bytes c).flatMap pctByte)

/-- Scheme, host and port of a parsed base URL, as the source reads them
off Node's `URL`. -/
structure URLParts where
  protocol : String
  hostname : String
  port : Option Nat
deriving DecidableEq, Repr

/-- Model of `new URL(baseUrl)` restricted to the `http(s)://host[:port]...`
shapes this action is configured with: yields the protocol, the host name
and the explicit port if one is given (`none` models Node's empty
`url.port`); any other shape models a thrown `Invalid URL` error. -/
def parseURL (s : String) : Option URLParts :=
  let parse := fun (proto : String) (rest : List Char) =>
    let hostPort := rest.takeWhile fun c => !(c = '/' || c = '?' || c = '#')
    let host := hostPort.takeWhile fun c => !(c = ':')
    if host.isEmpty then none
    else if host.length = hostPort.length then
      some { protocol := proto, hostname := String.mk host, port := none }
    else
      let ds := hostPort.drop (host.length + 1)
      if ds.isEmpty || ds.any (fun c => !(isDigitCh c)) then none
      else some { protocol := proto, hostname := String.mk host, port := some (digitsVal 0 ds) }
  if s.data.take 8 == "https://".data then
    parse "https:" (s.data.drop 8)
  else if s.data.take 7 == "http://".data then
    parse "http:" (s.data.drop 7)
  else none

/-- The single multipart upload request the source constructs: method,
target host/port/path, bearer header, and the one file field appended to
the form (field name, file name, content type, body bytes). -/
structure UploadRequest where
  method : String
  hostname : String
  port : Nat
  path : String
  authHeader : String
  partField : String
  partFilename : String
  partContentType : String
  partBody : List UInt8
deriving DecidableEq, Repr

/-- Request-construction half of `uploadToBrainfish`, up to the point where
the request is issued: `Buffer.from(processedContent, 'utf8')` (which
throws when the content is `undefined`), URL parsing, and assembly of the
request options and the single form part. -/
def buildUploadRequest (fileData : ProcessedFile) (apiToken catalogId baseUrl : String) :
    Except String UploadRequest :=
  match fileData.processedContent with
  | none => .error "The first argument must be of type string or an instance of Buffer, ArrayBuffer, or Array or an Array-like Object. Received undefined"
  | some content =>
    match parseURL baseUrl with
    | none => .error "Invalid URL"
    | some u =>
      .ok { method := "POST"
            hostname := u.hostname
            port := u.port.getD (if u.protocol = "https:" then 443 else 80)
            path := "/api/catalogs.upload?catalogId=" ++ encodeURIComponent catalogId
            authHeader := "Bearer " ++ apiToken
            partField := "file"
            partFilename := fileData.processedFileName
            partContentType := "application/json"
            partBody := strBytes content }

/-- Outcome of the one network round trip: a response with its status code
and accumulated body text, or a transport-level error. -/
inductive HttpOutcome where
  | response : Nat → String → HttpOutcome
  | transportError : String → HttpOutcome
deriving DecidableEq, Repr

/-- The value `uploadToBrainfish` resolves with on a 2xx status. -/
structure UploadResult where
  success : Bool
  statusCode : Nat
  data : String
  fileName : String
deriving DecidableEq, Repr

/-- Response-handling half of `uploadToBrainfish`: resolve on a status in
[200,300), reject with the status and body otherwise, reject with the
error message on a transport error. -/
def handleUploadResponse (processedFileName : String) : HttpOutcome → Except String UploadResult
  | .response statusCode responseData =>
    if 200 ≤ statusCode && statusCode < 300 then
      .ok { success := true, statusCode := statusCode, data := responseData
            fileName := processedFileName }
    else
      .error ("Upload failed with status " ++ toString statusCode ++ ": " ++ responseData)
  | .transportError msg => .error ("Request failed: " ++ msg)

/-- The three pipeline stages of `main` in sequence, instrumented with a
flag recording whether the network request was issued (it is issued
exactly when request construction succeeds). -/
def runPipeline (fs : String → Option String) (load : YamlLoad)
    (oasFilePath apiToken catalogId baseUrl : String) (outcome : HttpOutcome) :
    Except String UploadResult × Bool :=
  match readOASFile fs oasFilePath with
  | .error e => (.error e, false)
  | .ok fileData =>
    match processOASFile load fileData with
    | .error e => (.error e, false)
    | .ok processed =>
      match buildUploadRequest processed apiToken catalogId baseUrl with
      | .error e => (.error e, false)
      | .ok _ => (handleUploadResponse processed.processedFileName outcome, true)

/-- Action inputs as `core.getInput` returns them (absent inputs are the
empty string, which is falsy in JS). -/
structure ActionInputs where
  brainfish_api_token : String
  catalog_id : String
  oas_file_path : String
  base_url : String
deriving DecidableEq, Repr

/-- Observable outcome of one invocation of `main`: the two action outputs,
the `setFailed` message if any, whether an error-level log was emitted by
the catch handler, and whether a network request was issued. -/
structure ActionOutcome where
  status : Option String
  uploaded_file : Option String
  failedMessage : Option String
  errorLogged : Bool
  networkCalled : Bool
deriving DecidableEq, Repr

/-- Invocation failure as produced by `main`'s catch handler: error-level
log, `setFailed` with the error's message, and no outputs set. -/
def failOutcome (msg : String) (networkCalled : Bool) : ActionOutcome :=
  { status := none, uploaded_file := none, failedMessage := some msg
    errorLogged := true, networkCalled := networkCalled }

/-- Model of `main`: input validation (with the base-URL default), the
three pipeline stages, output setting on success, and the catch handler
converting any thrown error into an invocation failure. -/
def mainModel (fs : String → Option String) (load : YamlLoad)
    (inputs : ActionInputs) (outcome : HttpOutcome) : ActionOutcome :=
  let baseUrl := if inputs.base_url = "" then "https://app.brainfi.sh" else inputs.base_url
  if inputs.brainfish_api_token = "" then failOutcome "brainfish_api_token is required" false
  else if inputs.catalog_id = "" then failOutcome "catalog_id is required" false
  else if inputs.oas_file_path = "" then failOutcome "oas_file_path is required" false
  else
    match runPipeline fs load inputs.oas_file_path inputs.brainfish_api_token
        inputs.catalog_id baseUrl outcome with
    | (.error e, nc) => failOutcome e nc
    | (.ok r, nc) =>
      { status := some "✅ OAS file successfully synced to Brainfish!"
        uploaded_file := some r.fileName
        failedMessage := none, errorLogged := false, networkCalled := nc }

/-- Modelled from the spec: the YAML parsing of this repository is
delegated to the external js-yaml library (`yaml.load`), which is not part
of the repository's sources.  This function models its documented
behaviour on the concrete documents used in witnesses and counterexamples:
an empty or comments-only stream yields no document (JS `undefined`,
here `none`), a plain mapping yields the corresponding value tree, an
unterminated flow collection throws a parse error.  All other inputs are
mapped to a thrown error naming them as outside the model. -/
def yamlLoadModel : YamlLoad := fun s =>
  if s = "" then .ok none
  else if s = "# only a comment\n" then .ok none
  else if s = "a: 1" then .ok (some (.obj (.cons "a" (.num 1) .nil)))
  else if s = "name: test\nvalue: 42" then
    .ok (some (.obj (.cons "name" (.str "test") (.cons "value" (.num 42) .nil))))
  else if s = "a: [" then .error "unexpected end of the stream within a flow collection (2:1)"
  else .error "document outside the scope of this model"

/-! Round-trip development: parsing the output of `jsonStringify` yields
the serialized value again.  The lemmas follow the serializer's shape:
whitespace, literals, strings, numbers, then the mutual induction. -/

/-- Character lists consisting of JSON whitespace only. -/
def allWs (l : List Char) : Prop := ∀ c ∈ l, wsChar c = true

theorem allWs_nil : allWs [] := by intro c hc; cases hc

theorem allWs_append (h1 : allWs l1) (h2 : allWs l2) : allWs (l1 ++ l2) := by
  intro c hc
  rcases List.mem_append.mp hc with h | h
  · exact h1 c h
  · exact h2 c h

theorem allWs_gap : allWs jsonGap := by
  intro c hc
  simp only [jsonGap, List.mem_cons, List.not_mem_nil, or_false] at hc
  rcases hc with h | h <;> subst h <;> decide

theorem skipWs_cons_of_not_ws (h : wsChar c = false) (l : List Char) :
    skipWs (c :: l) = c :: l := by
  simp [skipWs, h]

theorem skipWs_append_allWs (h : allWs ws) (l : List Char) :
    skipWs (ws ++ l) = skipWs l := by
  induction ws with
  | nil => rfl
  | cons c cs ih =>
    have hc : wsChar c = true := h c (List.mem_cons_self c cs)
    have hcs : allWs cs := fun d hd => h d (List.mem_cons_of_mem c hd)
    simp [skipWs, hc, ih hcs]

theorem expectLit_append (ls rest : List Char) (v : JValue) :
    expectLit ls (ls ++ rest) v = some (v, rest) := by
  induction ls with
  | nil => rfl
  | cons l ls ih => simp [expectLit, ih]

theorem not_ws_of_digit (h : isDigitCh c = true) : wsChar c = false := by
  simp only [wsChar, Bool.or_eq_false_iff, decide_eq_false_iff_not]
  refine ⟨⟨⟨?_, ?_⟩, ?_⟩, ?_⟩ <;> intro hc <;> subst hc <;> exact absurd h (by decide)

theorem ne_rbracket_of_digit (h : isDigitCh c = true) : c ≠ ']' := by
  intro hc
  subst hc
  exact absurd h (by decide)

theorem digit_digChar (d : Nat) (h : d < 10) : isDigitCh (digChar d) = true := by
  interval_cases d <;> decide

theorem natCharsAux_spec (f : Nat) :
    ∀ n, n < f → natCharsAux f n ≠ [] ∧ (∀ c ∈ natCharsAux f n, isDigitCh c = true) := by
  induction f with
  | zero => intro n h; omega
  | succ f ih =>
    intro n h
    by_cases h10 : n < 10
    · refine ⟨by simp [natCharsAux, h10], ?_⟩
      intro c hc
      simp [natCharsAux, h10] at hc
      subst hc
      exact digit_digChar n h10
    · have hrec : n / 10 < f := by
        have := Nat.div_lt_self (by omega : 0 < n) (by omega : 1 < 10)
        omega
      obtain ⟨hne, hdig⟩ := ih (n / 10) hrec
      refine ⟨by simp [natCharsAux, h10, hne], ?_⟩
      intro c hc
      simp only [natCharsAux, h10, if_false, List.mem_append, List.mem_singleton] at hc
      rcases hc with hc | hc
      · exact hdig c hc
      · subst hc; exact digit_digChar _ (Nat.mod_lt n (by omega))

theorem digitsVal_nil (acc : Nat) : digitsVal acc [] = acc := rfl

theorem digitsVal_cons (acc : Nat) (c : Char) (cs : List Char) :
    digitsVal acc (c :: cs) = digitsVal (acc * 10 + (c.toNat - 48)) cs := rfl

theorem digitsVal_append (acc : Nat) (xs ys : List Char) :
    digitsVal acc (xs ++ ys) = digitsVal (digitsVal acc xs) ys := by
  induction xs generalizing acc with
  | nil => rfl
  | cons c cs ih =>
    rw [List.cons_append, digitsVal_cons, digitsVal_cons, ih]

theorem toNat_digChar (d : Nat) (h : d < 10) : (digChar d).toNat = 48 + d := by
  interval_cases d <;> decide

theorem digitsVal_natCharsAux (f : Nat) :
    ∀ n acc, n < f →
      digitsVal acc (natCharsAux f n) = acc * 10 ^ (natCharsAux f n).length + n := by
  induction f with
  | zero => intro n acc h; omega
  | succ f ih =>
    intro n acc h
    by_cases h10 : n < 10
    · have hrw : natCharsAux (f + 1) n = [digChar n] := by
        rw [natCharsAux, if_pos h10]
      rw [hrw, digitsVal_cons, digitsVal_nil, toNat_digChar n h10, List.length_singleton,
        pow_one]
      omega
    · have hrec : n / 10 < f := by
        have := Nat.div_lt_self (by omega : 0 < n) (by omega : 1 < 10)
        omega
      have hmod : n % 10 < 10 := Nat.mod_lt n (by omega)
      have hrw : natCharsAux (f + 1) n = natCharsAux f (n / 10) ++ [digChar (n % 10)] := by
        rw [natCharsAux, if_neg h10]
      rw [hrw, digitsVal_append, ih (n / 10) acc hrec, digitsVal_cons, digitsVal_nil,
        toNat_digChar _ hmod, List.length_append, List.length_cons, List.length_nil,
        Nat.zero_add, pow_succ, ← Nat.mul_assoc]
      have h1 : 48 + n % 10 - 48 = n % 10 := by omega
      rw [h1]
      have h2 := Nat.div_add_mod n 10
      omega

theorem hexVal_hexChar : ∀ n < 16, hexVal (hexChar n) = some n := by decide

theorem parseStrAux_quote (rest : List Char) : parseStrAux ('"' :: rest) = some ([], rest) := by
  rw [parseStrAux.eq_def]; simp

theorem parseStrAux_esc (e u : Char) (rest2 : List Char)
    (hne : ¬(e = 'u')) (hu : unescChar e = some u) :
    parseStrAux ('\\' :: e :: rest2) = (parseStrAux rest2).map fun p => (u :: p.1, p.2) := by
  rw [parseStrAux.eq_def]; simp [hne, hu]

theorem parseStrAux_unicode (h1 h2 h3 h4 : Char) (a b c2 d : Nat) (rest3 : List Char)
    (ha : hexVal h1 = some a) (hb : hexVal h2 = some b)
    (hc : hexVal h3 = some c2) (hd : hexVal h4 = some d)
    (hvalid : Nat.isValidChar (((a * 16 + b) * 16 + c2) * 16 + d)) :
    parseStrAux ('\\' :: 'u' :: h1 :: h2 :: h3 :: h4 :: rest3)
      = (parseStrAux rest3).map fun p =>
          (Char.ofNat (((a * 16 + b) * 16 + c2) * 16 + d) :: p.1, p.2) := by
  rw [parseStrAux.eq_def]; simp [ha, hb, hc, hd, hvalid]

theorem parseStrAux_plain (c : Char) (rest : List Char)
    (h1 : ¬(c = '"')) (h2 : ¬(c = '\\')) (h8 : ¬(c.toNat < 32)) :
    parseStrAux (c :: rest) = (parseStrAux rest).map fun p => (c :: p.1, p.2) := by
  rw [parseStrAux.eq_def]; simp [h1, h2, h8]

theorem parseStrAux_escList (l : List Char) :
    ∀ rest, parseStrAux (escList l ++ '"' :: rest) = some (l, rest) := by
  induction l with
  | nil => intro rest; rw [escList, List.nil_append, parseStrAux_quote]
  | cons c cs ih =>
    intro rest
    rw [escList, List.append_assoc]
    by_cases h1 : c = '"'
    · subst h1
      rw [show escChar '"' = ['\\', '"'] from rfl, List.cons_append, List.cons_append,
        List.nil_append, parseStrAux_esc '"' '"' _ (by decide) (by decide), ih rest]
      rfl
    · by_cases h2 : c = '\\'
      · subst h2
        rw [show escChar '\\' = ['\\', '\\'] from rfl, List.cons_append, List.cons_append,
          List.nil_append, parseStrAux_esc '\\' '\\' _ (by decide) (by decide), ih rest]
        rfl
      · by_cases h3 : c = '\x08'
        · subst h3
          rw [show escChar '\x08' = ['\\', 'b'] from rfl, List.cons_append, List.cons_append,
            List.nil_append, parseStrAux_esc 'b' '\x08' _ (by decide) (by decide), ih rest]
          rfl
        · by_cases h4 : c = '\t'
          · subst h4
            rw [show escChar '\t' = ['\\', 't'] from rfl, List.cons_append, List.cons_append,
              List.nil_append, parseStrAux_esc 't' '\t' _ (by decide) (by decide), ih rest]
            rfl
          · by_cases h5 : c = '\n'
            · subst h5
              rw [show escChar '\n' = ['\\', 'n'] from rfl, List.cons_append, List.cons_append,
                List.nil_append, parseStrAux_esc 'n' '\n' _ (by decide) (by decide), ih rest]
              rfl
            · by_cases h6 : c = '\x0c'
              · subst h6
                rw [show escChar '\x0c' = ['\\', 'f'] from rfl, List.cons_append,
                  List.cons_append, List.nil_append,
                  parseStrAux_esc 'f' '\x0c' _ (by decide) (by decide), ih rest]
                rfl
              · by_cases h7 : c = '\r'
                · subst h7
                  rw [show escChar '\r' = ['\\', 'r'] from rfl, List.cons_append,
                    List.cons_append, List.nil_append,
                    parseStrAux_esc 'r' '\r' _ (by decide) (by decide), ih rest]
                  rfl
                · by_cases h8 : c.toNat < 32
                  · have hesc : escChar c
                        = ['\\', 'u', '0', '0', hexChar (c.toNat / 16), hexChar (c.toNat % 16)] := by
                      simp [escChar, h1, h2, h3, h4, h5, h6, h7, h8]
                    have hhi : hexVal (hexChar (c.toNat / 16)) = some (c.toNat / 16) :=
                      hexVal_hexChar _ (by omega)
                    have hlo : hexVal (hexChar (c.toNat % 16)) = some (c.toNat % 16) :=
                      hexVal_hexChar _ (by omega)
                    have h0 : hexVal '0' = some 0 := by decide
                    have harith : ((0 * 16 + 0) * 16 + c.toNat / 16) * 16 + c.toNat % 16
                        = c.toNat := by omega
                    have hvalid : Nat.isValidChar
                        (((0 * 16 + 0) * 16 + c.toNat / 16) * 16 + c.toNat % 16) := by
                      rw [harith]; exact Or.inl (by omega)
                    rw [hesc]
                    simp only [List.cons_append, List.nil_append]
                    rw [parseStrAux_unicode '0' '0' _ _ 0 0 _ _ _ h0 h0 hhi hlo hvalid,
                      ih rest, harith, Char.ofNat_toNat]
                    rfl
                  · have hesc : escChar c = [c] := by
                      simp [escChar, h1, h2, h3, h4, h5, h6, h7, h8]
                    rw [hesc, List.cons_append, List.nil_append,
                      parseStrAux_plain c _ h1 h2 h8, ih rest]
                    rfl

/-- Heads that stop a digit run: an empty input or a non-digit first character. -/
def noDigitHead : List Char → Bool
  | [] => true
  | c :: _ => !(isDigitCh c)

theorem takeDigits_append (ds rest : List Char)
    (hds : ∀ c ∈ ds, isDigitCh c = true) (hrest : noDigitHead rest = true) :
    takeDigits (ds ++ rest) = (ds, rest) := by
  induction ds with
  | nil =>
    cases rest with
    | nil => rfl
    | cons c cs =>
      simp only [noDigitHead, Bool.not_eq_true'] at hrest
      simp [takeDigits, hrest]
  | cons c cs ih =>
    have hc : isDigitCh c = true := hds c (List.mem_cons_self c cs)
    have hcs := ih (fun d hd => hds d (List.mem_cons_of_mem c hd))
    simp [takeDigits, hc, hcs]

theorem natChars_spec (n : Nat) :
    natChars n ≠ [] ∧ (∀ c ∈ natChars n, isDigitCh c = true) :=
  natCharsAux_spec (n + 1) n (Nat.lt_succ_self n)

theorem digitsVal_natChars (n : Nat) : digitsVal 0 (natChars n) = n := by
  have := digitsVal_natCharsAux (n + 1) n 0 (Nat.lt_succ_self n)
  simpa [natChars] using this

theorem intChars_head (n : Int) :
    ∃ c cs, intChars n = c :: cs ∧ (isDigitCh c = true ∨ c = '-') := by
  by_cases hn : n < 0
  · exact ⟨'-', natChars n.natAbs, by simp [intChars, hn], Or.inr rfl⟩
  · obtain ⟨hne, hdig⟩ := natChars_spec n.toNat
    obtain ⟨d, ds, hds⟩ : ∃ d ds, natChars n.toNat = d :: ds := by
      cases h : natChars n.toNat with
      | nil => exact absurd h hne
      | cons d ds => exact ⟨d, ds, rfl⟩
    refine ⟨d, ds, ?_, Or.inl (hdig d (by rw [hds]; exact List.mem_cons_self d ds))⟩
    simp [intChars, hn, hds]

theorem numHead_not_key (c : Char) (h : isDigitCh c = true ∨ c = '-') :
    ¬(c = 'n') ∧ ¬(c = 't') ∧ ¬(c = 'f') ∧ ¬(c = '"') ∧ ¬(c = '[') ∧ ¬(c = '\x7b') := by
  rcases h with h | h
  · refine ⟨?_, ?_, ?_, ?_, ?_, ?_⟩ <;> intro hc <;> subst hc <;> exact absurd h (by decide)
  · subst h
    refine ⟨by decide, by decide, by decide, by decide, by decide, by decide⟩

theorem numHead_not_ws (c : Char) (h : isDigitCh c = true ∨ c = '-') : wsChar c = false := by
  rcases h with h | h
  · exact not_ws_of_digit h
  · subst h; decide

theorem numHead_ne_rbracket (c : Char) (h : isDigitCh c = true ∨ c = '-') : ¬(c = ']') := by
  rcases h with h | h
  · exact ne_rbracket_of_digit h
  · subst h; decide

theorem parseNumber_intChars (n : Int) (rest : List Char)
    (hrest : noDigitHead rest = true) :
    parseNumber (intChars n ++ rest) = some (n, rest) := by
  by_cases hn : n < 0
  · obtain ⟨hne, hdig⟩ := natChars_spec n.natAbs
    obtain ⟨d, ds, hds⟩ : ∃ d ds, natChars n.natAbs = d :: ds := by
      cases h : natChars n.natAbs with
      | nil => exact absurd h hne
      | cons d ds => exact ⟨d, ds, rfl⟩
    have htake := takeDigits_append (natChars n.natAbs) rest hdig hrest
    have hint : intChars n = '-' :: natChars n.natAbs := by
      simp [intChars, hn]
    rw [hint, List.cons_append, parseNumber, if_pos rfl, htake, hds]
    show some (-(digitsVal 0 (d :: ds) : Int), rest) = some (n, rest)
    rw [← hds, digitsVal_natChars]
    simp only [Option.some.injEq, Prod.mk.injEq, and_true]
    omega
  · obtain ⟨hne, hdig⟩ := natChars_spec n.toNat
    obtain ⟨d, ds, hds⟩ : ∃ d ds, natChars n.toNat = d :: ds := by
      cases h : natChars n.toNat with
      | nil => exact absurd h hne
      | cons d ds => exact ⟨d, ds, rfl⟩
    have hd : isDigitCh d = true := hdig d (by rw [hds]; exact List.mem_cons_self d ds)
    have hdm : ¬(d = '-') := by
      intro hc
      subst hc
      exact absurd hd (by decide)
    have htake := takeDigits_append (natChars n.toNat) rest hdig hrest
    have hint : intChars n = natChars n.toNat := by
      simp [intChars, hn]
    rw [hint, hds, List.cons_append, parseNumber, if_neg hdm, ← List.cons_append,
      ← hds, htake, hds]
    show some ((digitsVal 0 (d :: ds) : Int), rest) = some (n, rest)
    rw [← hds, digitsVal_natChars]
    simp only [Option.some.injEq, Prod.mk.injEq, and_true]
    omega

/-! Step lemmas for the value parser, one per token shape the serializer
can produce at the head of the input. -/

theorem parseVal_nullLit (f : Nat) (rest : List Char) :
    parseVal (f + 1) ("null".data ++ rest) = some (.null, rest) := by
  rw [show ("null".data : List Char) = 'n' :: 'u' :: 'l' :: 'l' :: [] from rfl,
    parseVal.eq_def]
  simp [expectLit]

theorem parseVal_trueLit (f : Nat) (rest : List Char) :
    parseVal (f + 1) ("true".data ++ rest) = some (.bool true, rest) := by
  rw [show ("true".data : List Char) = 't' :: 'r' :: 'u' :: 'e' :: [] from rfl,
    parseVal.eq_def]
  simp [expectLit]

theorem parseVal_falseLit (f : Nat) (rest : List Char) :
    parseVal (f + 1) ("false".data ++ rest) = some (.bool false, rest) := by
  rw [show ("false".data : List Char) = 'f' :: 'a' :: 'l' :: 's' :: 'e' :: [] from rfl,
    parseVal.eq_def]
  simp [expectLit]

theorem parseVal_str (f : Nat) (s : String) (rest : List Char) :
    parseVal (f + 1) (quoteChars s ++ rest) = some (.str s, rest) := by
  have hq : quoteChars s ++ rest = '"' :: (escList s.data ++ '"' :: rest) := by
    rw [quoteChars]
    simp [List.append_assoc]
  rw [hq, parseVal.eq_def]
  simp [parseStrAux_escList s.data rest]

theorem parseVal_num (f : Nat) (n : Int) (rest : List Char)
    (hrest : noDigitHead rest = true) :
    parseVal (f + 1) (intChars n ++ rest) = some (.num n, rest) := by
  obtain ⟨c, cs, hcs, hdisp⟩ := intChars_head n
  obtain ⟨k1, k2, k3, k4, k5, k6⟩ := numHead_not_key c hdisp
  rw [hcs, List.cons_append, parseVal.eq_def]
  simp only [if_neg k1, if_neg k2, if_neg k3, if_neg k4, if_neg k5, if_neg k6]
  rw [← List.cons_append, ← hcs, parseNumber_intChars n rest hrest]
  rfl

theorem parseVal_arrNil (f : Nat) (rest : List Char) :
    parseVal (f + 1) (['[', ']'] ++ rest) = some (.arr .nil, rest) := by
  rw [parseVal.eq_def]
  simp [skipWs, headIs, wsChar]

theorem parseVal_objNil (f : Nat) (rest : List Char) :
    parseVal (f + 1) (['\x7b', '\x7d'] ++ rest) = some (.obj .nil, rest) := by
  rw [parseVal.eq_def]
  simp [skipWs, headIs, wsChar]

theorem parseVal_openArr (f : Nat) (cs : List Char) :
    parseVal (f + 1) ('[' :: cs)
      = (if headIs (skipWs cs) ']' then some (.arr .nil, (skipWs cs).tail)
         else
           (parseVal f (skipWs cs)).bind fun p =>
             (parseArrTail f p.2).map fun q => (.arr (.cons p.1 q.1), q.2)) := by
  rw [parseVal.eq_def]
  simp

theorem parseVal_openObj (f : Nat) (cs : List Char) :
    parseVal (f + 1) ('\x7b' :: cs)
      = (if headIs (skipWs cs) '\x7d' then some (.obj .nil, (skipWs cs).tail)
         else
           (parseMember f (skipWs cs)).bind fun p =>
             (parseObjTail f p.2).map fun q => (.obj (.cons p.1.1 p.1.2 q.1), q.2)) := by
  rw [parseVal.eq_def]
  simp

theorem parseArrTail_skip_close (f : Nat) (cs rest : List Char)
    (h : skipWs cs = ']' :: rest) :
    parseArrTail (f + 1) cs = some (.nil, rest) := by
  rw [parseArrTail.eq_def]
  simp [h]

theorem parseArrTail_skip_comma (f : Nat) (cs rest : List Char)
    (h : skipWs cs = ',' :: rest) :
    parseArrTail (f + 1) cs
      = (parseVal f (skipWs rest)).bind fun p =>
          (parseArrTail f p.2).map fun q => (JArr.cons p.1 q.1, q.2) := by
  rw [parseArrTail.eq_def]
  simp [h]

theorem parseObjTail_skip_close (f : Nat) (cs rest : List Char)
    (h : skipWs cs = '\x7d' :: rest) :
    parseObjTail (f + 1) cs = some (.nil, rest) := by
  rw [parseObjTail.eq_def]
  simp [h]

theorem parseObjTail_skip_comma (f : Nat) (cs rest : List Char)
    (h : skipWs cs = ',' :: rest) :
    parseObjTail (f + 1) cs
      = (parseMember f (skipWs rest)).bind fun p =>
          (parseObjTail f p.2).map fun q => (JObj.cons p.1.1 p.1.2 q.1, q.2) := by
  rw [parseObjTail.eq_def]
  simp [h]

theorem parseMember_step (f : Nat) (k : String) (tail : List Char) :
    parseMember (f + 1) (quoteChars k ++ ':' :: ' ' :: tail)
      = (parseVal f (skipWs tail)).map fun q => ((k, q.1), q.2) := by
  have hq : quoteChars k ++ ':' :: ' ' :: tail
      = '"' :: (escList k.data ++ '"' :: (':' :: ' ' :: tail)) := by
    rw [quoteChars]
    simp [List.append_assoc]
  rw [hq, parseMember.eq_def]
  simp only [reduceIte, parseStrAux_escList k.data (':' :: ' ' :: tail)]
  rfl

/-! Head shape of serialized values, and digit-freeness of the heads of
the continuations the serializer places after a value. -/

theorem serJ_head (ind : List Char) (v : JValue) :
    ∃ c cs, serJ ind v = c :: cs ∧ wsChar c = false ∧ ¬(c = ']') := by
  cases v with
  | null => exact ⟨'n', _, by rw [serJ], by decide, by decide⟩
  | bool b =>
    cases b with
    | false => exact ⟨'f', _, by rw [serJ], by decide, by decide⟩
    | true => exact ⟨'t', _, by rw [serJ], by decide, by decide⟩
  | num n =>
    obtain ⟨c, cs, hcs, hdisp⟩ := intChars_head n
    exact ⟨c, cs, by rw [serJ, hcs], numHead_not_ws c hdisp, numHead_ne_rbracket c hdisp⟩
  | str s =>
    obtain ⟨tl, htl⟩ : ∃ tl, serJ ind (.str s) = '"' :: tl := by
      rw [serJ, quoteChars]
      simp only [List.cons_append]
      exact ⟨_, rfl⟩
    exact ⟨'"', tl, htl, by decide, by decide⟩
  | arr a =>
    cases a with
    | nil => exact ⟨'[', _, by rw [serJ], by decide, by decide⟩
    | cons h t =>
      obtain ⟨tl, htl⟩ : ∃ tl, serJ ind (.arr (.cons h t)) = '[' :: tl := by
        rw [serJ]
        simp only [List.cons_append]
        exact ⟨_, rfl⟩
      exact ⟨'[', tl, htl, by decide, by decide⟩
  | obj o =>
    cases o with
    | nil => exact ⟨'\x7b', _, by rw [serJ], by decide, by decide⟩
    | cons k v t =>
      obtain ⟨tl, htl⟩ : ∃ tl, serJ ind (.obj (.cons k v t)) = '\x7b' :: tl := by
        rw [serJ]
        simp only [List.cons_append]
        exact ⟨_, rfl⟩
      exact ⟨'\x7b', tl, htl, by decide, by decide⟩

theorem skipWs_serJ (ind : List Char) (v : JValue) (rest : List Char) :
    skipWs (serJ ind v ++ rest) = serJ ind v ++ rest := by
  obtain ⟨c, cs, hcs, hws, _⟩ := serJ_head ind v
  rw [hcs, List.cons_append, skipWs_cons_of_not_ws hws]

theorem headIs_serJ_rbracket (ind : List Char) (v : JValue) (rest : List Char) :
    headIs (serJ ind v ++ rest) ']' = false := by
  obtain ⟨c, cs, hcs, _, hne⟩ := serJ_head ind v
  rw [hcs, List.cons_append]
  simp [headIs, hne]

theorem noDigitHead_serArr (ind : List Char) (a : JArr) (l : List Char) :
    noDigitHead (serArr ind a ++ '\n' :: l) = true := by
  cases a with
  | nil => rw [serArr]; rfl
  | cons h t => rw [serArr]; rfl

theorem noDigitHead_serObj (ind : List Char) (o : JObj) (l : List Char) :
    noDigitHead (serObj ind o ++ '\n' :: l) = true := by
  cases o with
  | nil => rw [serObj]; rfl
  | cons k v t => rw [serObj]; rfl

/-! Fuel measure for the parser: enough fuel to parse a serialized value. -/

mutual
def sizeJ : JValue → Nat
  | .null | .bool _ | .num _ | .str _ => 1
  | .arr a => sizeA a + 1
  | .obj o => sizeO o + 1

def sizeA : JArr → Nat
  | .nil => 1
  | .cons h t => sizeJ h + sizeA t + 1

def sizeO : JObj → Nat
  | .nil => 1
  | .cons _ v t => sizeJ v + sizeO t + 1
end

theorem sizeJ_pos (v : JValue) : 1 ≤ sizeJ v := by
  cases v <;> simp [sizeJ]

theorem sizeA_pos (a : JArr) : 1 ≤ sizeA a := by
  cases a <;> simp [sizeA]

theorem sizeO_pos (o : JObj) : 1 ≤ sizeO o := by
  cases o <;> simp [sizeO]

theorem skipWs_cons_ws (h : wsChar c = true) (l : List Char) :
    skipWs (c :: l) = skipWs l := by
  simp [skipWs, h]

theorem skipWs_quote (s : String) (l : List Char) :
    skipWs (quoteChars s ++ l) = quoteChars s ++ l := by
  rw [quoteChars]
  simp only [List.cons_append, List.append_assoc]
  rw [skipWs_cons_of_not_ws (by decide)]

theorem headIs_quote_rbrace (s : String) (l : List Char) :
    headIs (quoteChars s ++ l) '\x7d' = false := by
  rw [quoteChars]
  simp only [List.cons_append, List.append_assoc]
  simp [headIs]

/-! The round trip: with enough fuel, the parser returns exactly the
serialized value and the untouched remainder of the input. -/

mutual
theorem parse_serJ (v : JValue) : ∀ (ind : List Char) (fuel : Nat) (rest : List Char),
    allWs ind → sizeJ v ≤ fuel → noDigitHead rest = true →
    parseVal fuel (serJ ind v ++ rest) = some (v, rest) := by
  intro ind fuel rest hind hsz hrest
  obtain ⟨f, rfl⟩ : ∃ f, fuel = f + 1 := ⟨fuel - 1, by have := sizeJ_pos v; omega⟩
  cases v with
  | null => rw [serJ]; exact parseVal_nullLit f rest
  | bool b =>
    cases b with
    | true => rw [serJ]; exact parseVal_trueLit f rest
    | false => rw [serJ]; exact parseVal_falseLit f rest
  | num n => rw [serJ]; exact parseVal_num f n rest hrest
  | str s => rw [serJ]; exact parseVal_str f s rest
  | arr a =>
    cases a with
    | nil => rw [serJ]; exact parseVal_arrNil f rest
    | cons h t =>
      rw [sizeJ, sizeA] at hsz
      rw [serJ]
      have hf1 : sizeJ h ≤ f := by have := sizeA_pos t; omega
      have hf2 : sizeA t ≤ f := by have := sizeJ_pos h; omega
      have hindg : allWs (ind ++ jsonGap) := allWs_append hind allWs_gap
      simp only [List.cons_append, List.nil_append, List.append_assoc]
      rw [parseVal_openArr]
      have hskip : skipWs ('\n' :: (ind ++ (jsonGap ++ (serJ (ind ++ jsonGap) h
            ++ (serArr (ind ++ jsonGap) t ++ ('\n' :: (ind ++ (']' :: rest))))))))
          = serJ (ind ++ jsonGap) h
            ++ (serArr (ind ++ jsonGap) t ++ ('\n' :: (ind ++ (']' :: rest)))) := by
        rw [skipWs_cons_ws (by decide), skipWs_append_allWs hind,
          skipWs_append_allWs allWs_gap, skipWs_serJ]
      rw [hskip, if_neg (by simp [headIs_serJ_rbracket])]
      rw [parse_serJ h (ind ++ jsonGap) f
        (serArr (ind ++ jsonGap) t ++ ('\n' :: (ind ++ (']' :: rest)))) hindg hf1
        (noDigitHead_serArr (ind ++ jsonGap) t (ind ++ (']' :: rest)))]
      simp only [Option.some_bind]
      rw [parse_serArr t (ind ++ jsonGap) ind f rest hindg hind hf2]
      rfl
  | obj o =>
    cases o with
    | nil => rw [serJ]; exact parseVal_objNil f rest
    | cons k v t =>
      rw [sizeJ, sizeO] at hsz
      rw [serJ]
      have hposv := sizeJ_pos v
      have hpost := sizeO_pos t
      obtain ⟨f2, rfl⟩ : ∃ f2, f = f2 + 1 := ⟨f - 1, by omega⟩
      have hf1 : sizeJ v ≤ f2 := by omega
      have hf2 : sizeO t ≤ f2 + 1 := by omega
      have hindg : allWs (ind ++ jsonGap) := allWs_append hind allWs_gap
      simp only [List.cons_append, List.nil_append, List.append_assoc]
      rw [parseVal_openObj]
      have hskip : skipWs ('\n' :: (ind ++ (jsonGap ++ (quoteChars k
            ++ (':' :: ' ' :: (serJ (ind ++ jsonGap) v
              ++ (serObj (ind ++ jsonGap) t ++ ('\n' :: (ind ++ ('\x7d' :: rest))))))))))
          = quoteChars k ++ (':' :: ' ' :: (serJ (ind ++ jsonGap) v
              ++ (serObj (ind ++ jsonGap) t ++ ('\n' :: (ind ++ ('\x7d' :: rest)))))) := by
        rw [skipWs_cons_ws (by decide), skipWs_append_allWs hind,
          skipWs_append_allWs allWs_gap, skipWs_quote]
      rw [hskip, if_neg (by simp [headIs_quote_rbrace])]
      rw [parseMember_step f2 k
        (serJ (ind ++ jsonGap) v
          ++ (serObj (ind ++ jsonGap) t ++ ('\n' :: (ind ++ ('\x7d' :: rest)))))]
      rw [skipWs_serJ]
      rw [parse_serJ v (ind ++ jsonGap) f2
        (serObj (ind ++ jsonGap) t ++ ('\n' :: (ind ++ ('\x7d' :: rest)))) hindg hf1
        (noDigitHead_serObj (ind ++ jsonGap) t (ind ++ ('\x7d' :: rest)))]
      simp only [Option.map_some', Option.some_bind]
      rw [parse_serObj t (ind ++ jsonGap) ind (f2 + 1) rest hindg hind hf2]
      rfl

theorem parse_serArr (a : JArr) : ∀ (ind ind2 : List Char) (fuel : Nat) (rest : List Char),
    allWs ind → allWs ind2 → sizeA a ≤ fuel →
    parseArrTail fuel (serArr ind a ++ ('\n' :: (ind2 ++ (']' :: rest)))) = some (a, rest) := by
  intro ind ind2 fuel rest hind hind2 hsz
  obtain ⟨f, rfl⟩ : ∃ f, fuel = f + 1 := ⟨fuel - 1, by have := sizeA_pos a; omega⟩
  cases a with
  | nil =>
    rw [serArr, List.nil_append]
    apply parseArrTail_skip_close
    rw [skipWs_cons_ws (by decide), skipWs_append_allWs hind2,
      skipWs_cons_of_not_ws (by decide)]
  | cons h t =>
    rw [sizeA] at hsz
    rw [serArr]
    have hf1 : sizeJ h ≤ f := by have := sizeA_pos t; omega
    have hf2 : sizeA t ≤ f := by have := sizeJ_pos h; omega
    simp only [List.cons_append, List.nil_append, List.append_assoc]
    rw [parseArrTail_skip_comma f _ _ (skipWs_cons_of_not_ws (by decide) _)]
    have hskip : skipWs ('\n' :: (ind ++ (serJ ind h
          ++ (serArr ind t ++ ('\n' :: (ind2 ++ (']' :: rest)))))))
        = serJ ind h ++ (serArr ind t ++ ('\n' :: (ind2 ++ (']' :: rest)))) := by
      rw [skipWs_cons_ws (by decide), skipWs_append_allWs hind, skipWs_serJ]
    rw [hskip]
    rw [parse_serJ h ind f (serArr ind t ++ ('\n' :: (ind2 ++ (']' :: rest)))) hind hf1
      (noDigitHead_serArr ind t (ind2 ++ (']' :: rest)))]
    simp only [Option.some_bind]
    rw [parse_serArr t ind ind2 f rest hind hind2 hf2]
    rfl

theorem parse_serObj (o : JObj) : ∀ (ind ind2 : List Char) (fuel : Nat) (rest : List Char),
    allWs ind → allWs ind2 → sizeO o ≤ fuel →
    parseObjTail fuel (serObj ind o ++ ('\n' :: (ind2 ++ ('\x7d' :: rest)))) = some (o, rest) := by
  intro ind ind2 fuel rest hind hind2 hsz
  obtain ⟨f, rfl⟩ : ∃ f, fuel = f + 1 := ⟨fuel - 1, by have := sizeO_pos o; omega⟩
  cases o with
  | nil =>
    rw [serObj, List.nil_append]
    apply parseObjTail_skip_close
    rw [skipWs_cons_ws (by decide), skipWs_append_allWs hind2,
      skipWs_cons_of_not_ws (by decide)]
  | cons k v t =>
    rw [sizeO] at hsz
    rw [serObj]
    have hposv := sizeJ_pos v
    have hpost := sizeO_pos t
    obtain ⟨f2, rfl⟩ : ∃ f2, f = f2 + 1 := ⟨f - 1, by omega⟩
    have hf1 : sizeJ v ≤ f2 := by omega
    have hf2 : sizeO t ≤ f2 + 1 := by omega
    simp only [List.cons_append, List.nil_append, List.append_assoc]
    rw [parseObjTail_skip_comma (f2 + 1) _ _ (skipWs_cons_of_not_ws (by decide) _)]
    have hskip : skipWs ('\n' :: (ind ++ (quoteChars k
          ++ (':' :: ' ' :: (serJ ind v
            ++ (serObj ind t ++ ('\n' :: (ind2 ++ ('\x7d' :: rest)))))))))
        = quoteChars k ++ (':' :: ' ' :: (serJ ind v
            ++ (serObj ind t ++ ('\n' :: (ind2 ++ ('\x7d' :: rest)))))) := by
      rw [skipWs_cons_ws (by decide), skipWs_append_allWs hind, skipWs_quote]
    rw [hskip]
    rw [parseMember_step f2 k
      (serJ ind v ++ (serObj ind t ++ ('\n' :: (ind2 ++ ('\x7d' :: rest)))))]
    rw [skipWs_serJ]
    rw [parse_serJ v ind f2
      (serObj ind t ++ ('\n' :: (ind2 ++ ('\x7d' :: rest)))) hind hf1
      (noDigitHead_serObj ind t (ind2 ++ ('\x7d' :: rest)))]
    simp only [Option.map_some', Option.some_bind]
    rw [parse_serObj t ind ind2 (f2 + 1) rest hind hind2 hf2]
    rfl
end

/-! Serialized length dominates the fuel measure, so the fuel chosen by
`jsonParse` always suffices on serializer output. -/

mutual
theorem sizeJ_le_len (v : JValue) : ∀ ind, sizeJ v ≤ (serJ ind v).length := by
  intro ind
  cases v with
  | null => rw [sizeJ, serJ]; simp
  | bool b => cases b <;> rw [sizeJ, serJ] <;> simp
  | num n =>
    rw [sizeJ, serJ]
    obtain ⟨c, cs, hcs, _⟩ := intChars_head n
    rw [hcs]
    simp
  | str s => rw [sizeJ, serJ, quoteChars]; simp
  | arr a =>
    cases a with
    | nil => rw [sizeJ, sizeA, serJ]; simp
    | cons h t =>
      rw [sizeJ, sizeA, serJ]
      have ih1 := sizeJ_le_len h (ind ++ jsonGap)
      have ih2 := sizeA_le_len t (ind ++ jsonGap)
      simp only [List.length_append, List.length_cons, List.length_nil]
      omega
  | obj o =>
    cases o with
    | nil => rw [sizeJ, sizeO, serJ]; simp
    | cons k v t =>
      rw [sizeJ, sizeO, serJ]
      have ih1 := sizeJ_le_len v (ind ++ jsonGap)
      have ih2 := sizeO_le_len t (ind ++ jsonGap)
      simp only [List.length_append, List.length_cons, List.length_nil]
      omega

theorem sizeA_le_len (a : JArr) : ∀ ind, sizeA a ≤ (serArr ind a).length + 1 := by
  intro ind
  cases a with
  | nil => rw [sizeA, serArr]; simp
  | cons h t =>
    rw [sizeA, serArr]
    have ih1 := sizeJ_le_len h ind
    have ih2 := sizeA_le_len t ind
    simp only [List.length_append, List.length_cons, List.length_nil]
    omega

theorem sizeO_le_len (o : JObj) : ∀ ind, sizeO o ≤ (serObj ind o).length + 1 := by
  intro ind
  cases o with
  | nil => rw [sizeO, serObj]; simp
  | cons k v t =>
    rw [sizeO, serObj]
    have ih1 := sizeJ_le_len v ind
    have ih2 := sizeO_le_len t ind
    simp only [List.length_append, List.length_cons, List.length_nil]
    omega
end

/-- Round-trip at the level of the two modelled library functions: parsing
the output of `JSON.stringify(v, null, 2)` recovers the same value tree. -/
theorem jsonParse_jsonStringify (v : JValue) : jsonParse (jsonStringify v) = .ok v := by
  have hskip : skipWs (serJ [] v) = serJ [] v := by
    have := skipWs_serJ [] v []
    simpa using this
  have hp : parseVal ((serJ [] v).length + 1) (serJ [] v) = some (v, []) := by
    have := parse_serJ v [] ((serJ [] v).length + 1) [] allWs_nil
      (by have := sizeJ_le_len v []; omega) rfl
    simpa using this
  show (match parseVal ((String.mk (serJ [] v)).length + 1)
      (skipWs (String.mk (serJ [] v)).data) with
    | some (w, rest) =>
      if skipWs rest = [] then Except.ok w
      else Except.error "Unexpected non-whitespace character after JSON data"
    | none => Except.error "Unexpected token in JSON") = Except.ok v
  have hlen : (String.mk (serJ [] v)).length = (serJ [] v).length := rfl
  rw [show (String.mk (serJ [] v)).data = serJ [] v from rfl, hlen, hskip, hp]
  rfl

/-! Claim theorems. -/

/-- C1 (counterexample): the empty file is a syntactically valid YAML
stream, yet on it the Format Normalizer succeeds with a payload whose
content is `undefined` (`none`), not valid JSON text — `yaml.load('')`
returns `undefined` and `JSON.stringify(undefined, null, 2)` returns
`undefined`, so the claim's universal statement fails at this input. -/
theorem C1_counterexample :
    (processOASFile yamlLoadModel
        { content := "", extension := ".yaml", fileName := "empty.yaml", size := 0 }).isOk = true
    ∧ ((processOASFile yamlLoadModel
        { content := "", extension := ".yaml", fileName := "empty.yaml", size := 0 }).toOption.bind
          ProcessedFile.processedContent) = none := by
  constructor
  · rfl
  · rfl

/-- C1 (amended): for every YAML-dispatched file whose content parses to a
defined document (value tree `v`), the normalized payload's content is the
JSON serialization of `v`, and that text is valid JSON whose parse yields a
value tree deep-equal to `v`, the tree obtained from the YAML source
directly. -/
theorem C1_yaml_roundtrip (load : YamlLoad) (r : FileData) (v : JValue)
    (hext : r.extension = ".yaml" ∨ r.extension = ".yml")
    (hload : load r.content = .ok (some v)) :
    processOASFile load r
      = .ok { content := r.content, extension := r.extension, fileName := r.fileName
              size := r.size, processedContent := some (jsonStringify v)
              processedFileName := replaceYamlExt r.fileName }
    ∧ jsonParse (jsonStringify v) = .ok v := by
  constructor
  · rcases hext with h | h <;>
      simp [processOASFile, h, convertYamlToJson, hload, Except.map]
  · exact jsonParse_jsonStringify v

/-- Witness for C1 at a concrete two-key YAML mapping. -/
theorem C1_yaml_roundtrip_witness :
    ((".yaml" : String) = ".yaml" ∨ (".yaml" : String) = ".yml")
    ∧ yamlLoadModel "name: test\nvalue: 42"
        = .ok (some (.obj (.cons "name" (.str "test") (.cons "value" (.num 42) .nil))))
    ∧ (processOASFile yamlLoadModel
          { content := "name: test\nvalue: 42", extension := ".yaml"
            fileName := "api-spec.yaml", size := 20 }
        = .ok { content := "name: test\nvalue: 42", extension := ".yaml"
                fileName := "api-spec.yaml", size := 20
                processedContent := some (jsonStringify
                  (.obj (.cons "name" (.str "test") (.cons "value" (.num 42) .nil))))
                processedFileName := replaceYamlExt "api-spec.yaml" }
        ∧ jsonParse (jsonStringify
            (.obj (.cons "name" (.str "test") (.cons "value" (.num 42) .nil)))) = .ok
              (.obj (.cons "name" (.str "test") (.cons "value" (.num 42) .nil)))) :=
  ⟨Or.inl rfl, rfl,
    C1_yaml_roundtrip yamlLoadModel
      { content := "name: test\nvalue: 42", extension := ".yaml"
        fileName := "api-spec.yaml", size := 20 }
      (.obj (.cons "name" (.str "test") (.cons "value" (.num 42) .nil)))
      (Or.inl rfl) rfl⟩

/-- C2: a `.json` file with valid JSON content passes through verbatim —
the processed content is the source text itself, the filename is unchanged,
and the constructed upload request carries exactly the source text's UTF-8
bytes under the source filename. -/
theorem C2_json_passthrough (load : YamlLoad) (r : FileData) (v : JValue)
    (hext : r.extension = ".json") (hvalid : jsonParse r.content = .ok v)
    (apiToken catalogId baseUrl : String) (u : URLParts)
    (hurl : parseURL baseUrl = some u) :
    ∃ p, processOASFile load r = .ok p
      ∧ p.processedContent = some r.content
      ∧ p.processedFileName = r.fileName
      ∧ ∃ req, buildUploadRequest p apiToken catalogId baseUrl = .ok req
          ∧ req.partBody = strBytes r.content
          ∧ req.partFilename = r.fileName := by
  refine ⟨{ content := r.content, extension := r.extension, fileName := r.fileName
            size := r.size, processedContent := some r.content
            processedFileName := r.fileName }, ?_, rfl, rfl, ?_⟩
  · simp [processOASFile, hext, hvalid]
  · exact ⟨{ method := "POST", hostname := u.hostname
             port := u.port.getD (if u.protocol = "https:" then 443 else 80)
             path := "/api/catalogs.upload?catalogId=" ++ encodeURIComponent catalogId
             authHeader := "Bearer " ++ apiToken, partField := "file"
             partFilename := r.fileName, partContentType := "application/json"
             partBody := strBytes r.content },
      by simp [buildUploadRequest, hurl], rfl, rfl⟩

/-- Witness for C2 on the JSON document `null`. -/
theorem C2_json_passthrough_witness :
    ((".json" : String) = ".json")
    ∧ jsonParse "null" = .ok .null
    ∧ parseURL "https://app.brainfi.sh"
        = some { protocol := "https:", hostname := "app.brainfi.sh", port := none }
    ∧ (∃ p, processOASFile yamlLoadModel
          { content := "null", extension := ".json", fileName := "api-spec.json", size := 4 }
        = .ok p
      ∧ p.processedContent = some "null"
      ∧ p.processedFileName = "api-spec.json"
      ∧ ∃ req, buildUploadRequest p "token" "catalog-1" "https://app.brainfi.sh" = .ok req
          ∧ req.partBody = strBytes "null"
          ∧ req.partFilename = "api-spec.json") :=
  ⟨rfl, rfl, rfl,
    C2_json_passthrough yamlLoadModel
      { content := "null", extension := ".json", fileName := "api-spec.json", size := 4 }
      .null rfl rfl "token" "catalog-1" "https://app.brainfi.sh"
      { protocol := "https:", hostname := "app.brainfi.sh", port := none } rfl⟩

/-- C3 (counterexample): a file named `API.YAML` is dispatched as YAML
(the captured extension is lower-cased to `.yaml`), but the rename regex
`/\.(yaml|yml)$/` is case-sensitive, so the uploaded filename stays
`API.YAML` instead of becoming `API.json` as the claim requires. -/
theorem C3_counterexample :
    readOASFile (fun p => if p = "API.YAML" then some "a: 1" else none) "API.YAML"
      = .ok { content := "a: 1", extension := ".yaml", fileName := "API.YAML", size := 4 }
    ∧ (processOASFile yamlLoadModel
        { content := "a: 1", extension := ".yaml", fileName := "API.YAML", size := 4 }).toOption.map
          ProcessedFile.processedFileName = some "API.YAML"
    ∧ ¬(("API.YAML" : String) = "API.json") := by
  refine ⟨rfl, rfl, by decide⟩

/-- C3 (amended): dispatch is case-insensitive (it uses the lower-cased
captured extension), and the output filename is the source filename with
the rename regex applied: when the filename literally ends in the
lower-case suffix `.yaml` or `.yml` it becomes the stem followed by
`.json`; for any other casing of the suffix it is left unchanged. -/
theorem C3_filename_rewrite (load : YamlLoad) (r : FileData) (pv : Option JValue)
    (hext : r.extension = ".yaml" ∨ r.extension = ".yml")
    (hload : load r.content = .ok pv) :
    ∃ p, processOASFile load r = .ok p
      ∧ p.processedFileName = replaceYamlExt r.fileName
      ∧ (endsWithL r.fileName.data ".yaml".data = true →
          p.processedFileName
            = String.mk (r.fileName.data.take (r.fileName.data.length - 5) ++ ".json".data))
      ∧ (endsWithL r.fileName.data ".yaml".data = false →
          endsWithL r.fileName.data ".yml".data = true →
          p.processedFileName
            = String.mk (r.fileName.data.take (r.fileName.data.length - 4) ++ ".json".data))
      ∧ (endsWithL r.fileName.data ".yaml".data = false →
          endsWithL r.fileName.data ".yml".data = false →
          p.processedFileName = r.fileName) := by
  refine ⟨{ content := r.content, extension := r.extension, fileName := r.fileName
            size := r.size, processedContent := pv.map jsonStringify
            processedFileName := replaceYamlExt r.fileName }, ?_, rfl, ?_, ?_, ?_⟩
  · rcases hext with h | h <;>
      simp [processOASFile, h, convertYamlToJson, hload, Except.map]
  · intro h5
    simp [replaceYamlExt, h5]
  · intro h5 h4
    simp [replaceYamlExt, h5, h4]
  · intro h5 h4
    simp [replaceYamlExt, h5, h4]

/-- Witness for C3 on `api-spec.yaml`. -/
theorem C3_filename_rewrite_witness :
    ((".yaml" : String) = ".yaml" ∨ (".yaml" : String) = ".yml")
    ∧ yamlLoadModel "a: 1" = .ok (some (.obj (.cons "a" (.num 1) .nil)))
    ∧ (∃ p, processOASFile yamlLoadModel
          { content := "a: 1", extension := ".yaml", fileName := "api-spec.yaml", size := 4 }
        = .ok p
      ∧ p.processedFileName = replaceYamlExt "api-spec.yaml"
      ∧ (endsWithL "api-spec.yaml".data ".yaml".data = true →
          p.processedFileName
            = String.mk ("api-spec.yaml".data.take ("api-spec.yaml".data.length - 5)
                ++ ".json".data))
      ∧ (endsWithL "api-spec.yaml".data ".yaml".data = false →
          endsWithL "api-spec.yaml".data ".yml".data = true →
          p.processedFileName
            = String.mk ("api-spec.yaml".data.take ("api-spec.yaml".data.length - 4)
                ++ ".json".data))
      ∧ (endsWithL "api-spec.yaml".data ".yaml".data = false →
          endsWithL "api-spec.yaml".data ".yml".data = false →
          p.processedFileName = "api-spec.yaml")) :=
  ⟨Or.inl rfl, rfl,
    C3_filename_rewrite yamlLoadModel
      { content := "a: 1", extension := ".yaml", fileName := "api-spec.yaml", size := 4 }
      (some (.obj (.cons "a" (.num 1) .nil))) (Or.inl rfl) rfl⟩

/-- C4: the uploader resolves with success — echoing the uploaded filename
and the raw response body — exactly when the HTTP status is in [200,300);
any other status or a transport-level error rejects with a message carrying
the status code and the response or error body. -/
theorem C4_upload_response (name : String) :
    (∀ code body, 200 ≤ code → code < 300 →
        handleUploadResponse name (.response code body)
          = .ok { success := true, statusCode := code, data := body, fileName := name })
    ∧ (∀ code body, ¬(200 ≤ code ∧ code < 300) →
        handleUploadResponse name (.response code body)
          = .error ("Upload failed with status " ++ toString code ++ ": " ++ body))
    ∧ (∀ msg, handleUploadResponse name (.transportError msg)
          = .error ("Request failed: " ++ msg))
    ∧ (∀ o, (handleUploadResponse name o).isOk = true
          ↔ ∃ code body, o = .response code body ∧ 200 ≤ code ∧ code < 300) := by
  refine ⟨?_, ?_, ?_, ?_⟩
  · intro code body h1 h2
    simp [handleUploadResponse, h1, h2]
  · intro code body h
    have hb : ¬(200 ≤ code && code < 300) = true := by
      simp only [Bool.and_eq_true, decide_eq_true_eq]
      exact h
    simp [handleUploadResponse, hb]
  · intro msg
    rfl
  · intro o
    cases o with
    | response code body =>
      by_cases h : 200 ≤ code ∧ code < 300
      · constructor
        · intro _
          exact ⟨code, body, rfl, h.1, h.2⟩
        · intro _
          simp [handleUploadResponse, h.1, h.2, Except.isOk, Except.toBool]
      · have hb : ¬(200 ≤ code && code < 300) = true := by
          simp only [Bool.and_eq_true, decide_eq_true_eq]
          exact h
        constructor
        · intro hok
          exfalso
          simp [handleUploadResponse, hb, Except.isOk, Except.toBool] at hok
        · rintro ⟨c, b, hcb, hc1, hc2⟩
          injection hcb with hcb1 hcb2
          subst hcb1
          exact absurd ⟨hc1, hc2⟩ h
    | transportError msg =>
      simp [handleUploadResponse, Except.isOk, Except.toBool]

/-- Witness for C4 at statuses 201, 500 and a transport error. -/
theorem C4_upload_response_witness :
    handleUploadResponse "api-spec.json" (.response 201 "created")
      = .ok { success := true, statusCode := 201, data := "created", fileName := "api-spec.json" }
    ∧ handleUploadResponse "api-spec.json" (.response 500 "server error")
      = .error ("Upload failed with status " ++ toString 500 ++ ": " ++ "server error")
    ∧ handleUploadResponse "api-spec.json" (.transportError "socket hang up")
      = .error ("Request failed: " ++ "socket hang up") :=
  ⟨(C4_upload_response "api-spec.json").1 201 "created" (by omega) (by omega),
    (C4_upload_response "api-spec.json").2.1 500 "server error" (by omega),
    (C4_upload_response "api-spec.json").2.2.1 "socket hang up"⟩

/-- C5: a path that does not resolve to a file makes the File Loader fail
with the file-not-found message, and the pipeline issues no network call
(whatever the network would have answered). -/
theorem C5_file_not_found (fs : String → Option String) (load : YamlLoad)
    (path apiToken catalogId baseUrl : String) (outcome : HttpOutcome)
    (h : fs path = none) :
    readOASFile fs path = .error ("OAS file not found at path: " ++ path)
    ∧ runPipeline fs load path apiToken catalogId baseUrl outcome
        = (.error ("OAS file not found at path: " ++ path), false) := by
  constructor
  · simp [readOASFile, h]
  · simp [runPipeline, readOASFile, h]

/-- Witness for C5 on a missing path. -/
theorem C5_file_not_found_witness :
    ((fun _ => none) : String → Option String) "missing/openapi.yaml" = none
    ∧ (readOASFile (fun _ => none) "missing/openapi.yaml"
        = .error ("OAS file not found at path: " ++ "missing/openapi.yaml")
      ∧ runPipeline (fun _ => none) yamlLoadModel "missing/openapi.yaml" "token" "cat"
          "https://app.brainfi.sh" (.response 200 "ok")
        = (.error ("OAS file not found at path: " ++ "missing/openapi.yaml"), false)) :=
  ⟨rfl, C5_file_not_found (fun _ => none) yamlLoadModel "missing/openapi.yaml" "token" "cat"
    "https://app.brainfi.sh" (.response 200 "ok") rfl⟩

/-- C6: a YAML-dispatched file whose content fails to parse aborts with the
`Failed to parse YAML content` error embedding the parser's message, and a
JSON-dispatched file whose content fails to parse aborts with the
`Invalid JSON format` error embedding the parser's message; in both cases
no network call is made. -/
theorem C6_parse_failures (fs : String → Option String) (load : YamlLoad)
    (path apiToken catalogId baseUrl c msg : String) (outcome : HttpOutcome)
    (hc : fs path = some c) :
    ((lowerStr (extname path) = ".yaml" ∨ lowerStr (extname path) = ".yml") →
      load c = .error msg →
      runPipeline fs load path apiToken catalogId baseUrl outcome
        = (.error ("Failed to parse YAML content: " ++ msg), false))
    ∧ (lowerStr (extname path) = ".json" →
      jsonParse c = .error msg →
      runPipeline fs load path apiToken catalogId baseUrl outcome
        = (.error ("Invalid JSON format: " ++ msg), false)) := by
  constructor
  · intro hext hload
    rcases hext with h | h <;>
      simp [runPipeline, readOASFile, hc, processOASFile, h, convertYamlToJson, hload,
        Except.map]
  · intro hext hparse
    simp [runPipeline, readOASFile, hc, processOASFile, hext, hparse]

/-- Witness for C6: an unterminated YAML flow collection and a malformed
JSON document, each aborting before the network. -/
theorem C6_parse_failures_witness :
    ((fun p => if p = "bad.yaml" then some "a: [" else some "nul") "bad.yaml" = some "a: ["
      ∧ (lowerStr (extname "bad.yaml") = ".yaml" ∨ lowerStr (extname "bad.yaml") = ".yml")
      ∧ yamlLoadModel "a: ["
          = .error "unexpected end of the stream within a flow collection (2:1)"
      ∧ runPipeline (fun p => if p = "bad.yaml" then some "a: [" else some "nul")
          yamlLoadModel "bad.yaml" "token" "cat" "https://app.brainfi.sh" (.response 200 "ok")
        = (.error ("Failed to parse YAML content: "
            ++ "unexpected end of the stream within a flow collection (2:1)"), false))
    ∧ ((fun p => if p = "bad.json" then some "nul" else none) "bad.json" = some "nul"
      ∧ lowerStr (extname "bad.json") = ".json"
      ∧ jsonParse "nul" = .error "Unexpected token in JSON"
      ∧ runPipeline (fun p => if p = "bad.json" then some "nul" else none)
          yamlLoadModel "bad.json" "token" "cat" "https://app.brainfi.sh" (.response 200 "ok")
        = (.error ("Invalid JSON format: " ++ "Unexpected token in JSON"), false)) :=
  ⟨⟨rfl, Or.inl rfl, rfl,
      (C6_parse_failures (fun p => if p = "bad.yaml" then some "a: [" else some "nul")
        yamlLoadModel "bad.yaml" "token" "cat" "https://app.brainfi.sh" "a: ["
        "unexpected end of the stream within a flow collection (2:1)"
        (.response 200 "ok") rfl).1 (Or.inl rfl) rfl⟩,
    ⟨rfl, rfl, rfl,
      (C6_parse_failures (fun p => if p = "bad.json" then some "nul" else none)
        yamlLoadModel "bad.json" "token" "cat" "https://app.brainfi.sh" "nul"
        "Unexpected token in JSON" (.response 200 "ok") rfl).2 rfl rfl⟩⟩

/-- C7: a file whose lower-cased extension is outside the supported set
fails with the `Unsupported file format` error, whose message names the
supported set, and no network call is made. -/
theorem C7_unsupported_format (fs : String → Option String) (load : YamlLoad)
    (path apiToken catalogId baseUrl c : String) (outcome : HttpOutcome)
    (hc : fs path = some c)
    (h1 : ¬(lowerStr (extname path) = ".yaml")) (h2 : ¬(lowerStr (extname path) = ".yml"))
    (h3 : ¬(lowerStr (extname path) = ".json")) :
    runPipeline fs load path apiToken catalogId baseUrl outcome
      = (.error ("Unsupported file format: " ++ lowerStr (extname path)
          ++ ". Supported formats: .yaml, .yml, .json"), false) := by
  simp [runPipeline, readOASFile, hc, processOASFile, h1, h2, h3]

/-- Witness for C7 on a `.txt` file. -/
theorem C7_unsupported_format_witness :
    ((fun p => if p = "notes.txt" then some "hello" else none) "notes.txt" = some "hello"
      ∧ ¬(lowerStr (extname "notes.txt") = ".yaml")
      ∧ ¬(lowerStr (extname "notes.txt") = ".yml")
      ∧ ¬(lowerStr (extname "notes.txt") = ".json"))
    ∧ runPipeline (fun p => if p = "notes.txt" then some "hello" else none) yamlLoadModel
        "notes.txt" "token" "cat" "https://app.brainfi.sh" (.response 200 "ok")
      = (.error ("Unsupported file format: " ++ lowerStr (extname "notes.txt")
          ++ ". Supported formats: .yaml, .yml, .json"), false) :=
  ⟨⟨rfl, by decide, by decide, by decide⟩,
    C7_unsupported_format (fun p => if p = "notes.txt" then some "hello" else none)
      yamlLoadModel "notes.txt" "token" "cat" "https://app.brainfi.sh" "hello"
      (.response 200 "ok") rfl (by decide) (by decide) (by decide)⟩

/-- C8: for any normalized payload with defined content, the uploader
builds the one POST request: host and port from the base URL, path
`/api/catalogs.upload?catalogId=` followed by the (URI-encoded) catalog id,
bearer authorization, and a single file field named `file` with content
type `application/json`, the payload's output filename, and the payload's
JSON text as UTF-8 bytes. -/
theorem C8_upload_request (p : ProcessedFile) (content apiToken catalogId baseUrl : String)
    (u : URLParts)
    (hc : p.processedContent = some content) (hurl : parseURL baseUrl = some u) :
    buildUploadRequest p apiToken catalogId baseUrl
      = .ok { method := "POST"
              hostname := u.hostname
              port := u.port.getD (if u.protocol = "https:" then 443 else 80)
              path := "/api/catalogs.upload?catalogId=" ++ encodeURIComponent catalogId
              authHeader := "Bearer " ++ apiToken
              partField := "file"
              partFilename := p.processedFileName
              partContentType := "application/json"
              partBody := strBytes content } := by
  simp [buildUploadRequest, hc, hurl]

/-- Witness for C8 with the default base URL and a UUID catalog id (on
which the URI encoding is the identity). -/
theorem C8_upload_request_witness :
    ({ content := "null", extension := ".json", fileName := "api-spec.json", size := 4
       processedContent := some "null"
       processedFileName := "api-spec.json" } : ProcessedFile).processedContent = some "null"
    ∧ parseURL "https://app.brainfi.sh"
        = some { protocol := "https:", hostname := "app.brainfi.sh", port := none }
    ∧ encodeURIComponent "8a2abadd-1140-4f40-921c-e4a30c6a8238"
        = "8a2abadd-1140-4f40-921c-e4a30c6a8238"
    ∧ buildUploadRequest
        { content := "null", extension := ".json", fileName := "api-spec.json", size := 4
          processedContent := some "null", processedFileName := "api-spec.json" }
        "token" "8a2abadd-1140-4f40-921c-e4a30c6a8238" "https://app.brainfi.sh"
      = .ok { method := "POST"
              hostname := "app.brainfi.sh"
              port := (none : Option Nat).getD
                (if ("https:" : String) = "https:" then 443 else 80)
              path := "/api/catalogs.upload?catalogId="
                ++ encodeURIComponent "8a2abadd-1140-4f40-921c-e4a30c6a8238"
              authHeader := "Bearer " ++ "token"
              partField := "file"
              partFilename := "api-spec.json"
              partContentType := "application/json"
              partBody := strBytes "null" } :=
  ⟨rfl, rfl, by decide,
    C8_upload_request
      { content := "null", extension := ".json", fileName := "api-spec.json", size := 4
        processedContent := some "null", processedFileName := "api-spec.json" }
      "null" "token" "8a2abadd-1140-4f40-921c-e4a30c6a8238" "https://app.brainfi.sh"
      { protocol := "https:", hostname := "app.brainfi.sh", port := none } rfl rfl⟩

/-- Success of the pipeline requires a 2xx response from the network. -/
theorem runPipeline_ok_status (fs : String → Option String) (load : YamlLoad)
    (path apiToken catalogId baseUrl : String) (o : HttpOutcome)
    (r : UploadResult) (nc : Bool)
    (h : runPipeline fs load path apiToken catalogId baseUrl o = (.ok r, nc)) :
    ∃ code body, o = .response code body ∧ 200 ≤ code ∧ code < 300 := by
  rcases h1 : readOASFile fs path with e | fd
  · simp [runPipeline, h1] at h
  rcases h2 : processOASFile load fd with e | pr
  · simp [runPipeline, h1, h2] at h
  rcases h3 : buildUploadRequest pr apiToken catalogId baseUrl with e | req
  · simp [runPipeline, h1, h2, h3] at h
  simp only [runPipeline, h1, h2, h3] at h
  cases o with
  | response code body =>
    refine ⟨code, body, rfl, ?_⟩
    by_cases hcode : (200 ≤ code && code < 300) = true
    · simpa [Bool.and_eq_true, decide_eq_true_eq] using hcode
    · exfalso
      simp [handleUploadResponse, hcode] at h
  | transportError msg =>
    exfalso
    simp [handleUploadResponse] at h

/-- C9: any error raised by a pipeline stage reaches the top-level handler,
which logs it at error level and converts it into the invocation failure
signal carrying exactly that error's message, with neither the `status`
nor the `uploaded_file` output set; conversely the outputs are set only
when the uploader resolved a 2xx response. -/
theorem C9_error_propagation (fs : String → Option String) (load : YamlLoad)
    (inputs : ActionInputs) (outcome : HttpOutcome) :
    (∀ e nc, ¬(inputs.brainfish_api_token = "") → ¬(inputs.catalog_id = "") →
      ¬(inputs.oas_file_path = "") →
      runPipeline fs load inputs.oas_file_path inputs.brainfish_api_token inputs.catalog_id
          (if inputs.base_url = "" then "https://app.brainfi.sh" else inputs.base_url) outcome
        = (.error e, nc) →
      mainModel fs load inputs outcome
        = { status := none, uploaded_file := none, failedMessage := some e
            errorLogged := true, networkCalled := nc })
    ∧ ((mainModel fs load inputs outcome).status.isSome = true →
        ∃ code body, outcome = .response code body ∧ 200 ≤ code ∧ code < 300
          ∧ (mainModel fs load inputs outcome).uploaded_file.isSome = true
          ∧ (mainModel fs load inputs outcome).failedMessage = none) := by
  constructor
  · intro e nc h1 h2 h3 hp
    simp only [mainModel, if_neg h1, if_neg h2, if_neg h3, hp]
    rfl
  · intro hs
    by_cases h1 : inputs.brainfish_api_token = ""
    · simp [mainModel, h1, failOutcome] at hs
    by_cases h2 : inputs.catalog_id = ""
    · simp [mainModel, h1, h2, failOutcome] at hs
    by_cases h3 : inputs.oas_file_path = ""
    · simp [mainModel, h1, h2, h3, failOutcome] at hs
    rcases hp : runPipeline fs load inputs.oas_file_path inputs.brainfish_api_token
        inputs.catalog_id
        (if inputs.base_url = "" then "https://app.brainfi.sh" else inputs.base_url) outcome
      with ⟨res, nc⟩
    cases res with
    | error e =>
      exfalso
      simp [mainModel, if_neg h1, if_neg h2, if_neg h3, hp, failOutcome] at hs
    | ok r =>
      obtain ⟨code, body, ho, hc1, hc2⟩ := runPipeline_ok_status fs load _ _ _ _ _ _ _ hp
      refine ⟨code, body, ho, hc1, hc2, ?_, ?_⟩ <;>
        simp [mainModel, if_neg h1, if_neg h2, if_neg h3, hp]

/-- Witness for C9: a missing file under valid inputs fails the invocation
with exactly the loader's message, no outputs, and no network call. -/
theorem C9_error_propagation_witness :
    ¬(("token" : String) = "") ∧ ¬(("cat" : String) = "") ∧ ¬(("missing.yaml" : String) = "")
    ∧ runPipeline (fun _ => none) yamlLoadModel "missing.yaml" "token" "cat"
        (if ("" : String) = "" then "https://app.brainfi.sh" else "") (.response 200 "ok")
      = (.error ("OAS file not found at path: missing.yaml"), false)
    ∧ mainModel (fun _ => none) yamlLoadModel
        { brainfish_api_token := "token", catalog_id := "cat"
          oas_file_path := "missing.yaml", base_url := "" } (.response 200 "ok")
      = { status := none, uploaded_file := none
          failedMessage := some "OAS file not found at path: missing.yaml"
          errorLogged := true, networkCalled := false } :=
  ⟨by decide, by decide, by decide, rfl,
    (C9_error_propagation (fun _ => none) yamlLoadModel
      { brainfish_api_token := "token", catalog_id := "cat"
        oas_file_path := "missing.yaml", base_url := "" } (.response 200 "ok")).1
      "OAS file not found at path: missing.yaml" false
      (by decide) (by decide) (by decide) rfl⟩

/-- C10: a YAML-dispatched file whose stream holds no document (such as an
empty or comments-only file) does not raise `InvalidYaml`: `yaml.load`
returns `undefined`, `JSON.stringify(undefined)` returns `undefined`, so
`convertYamlToJson` succeeds with a non-string (`none`) content; the
payload carries no JSON text at all, and the failure surfaces only when
the upload body is constructed (`Buffer.from(undefined, 'utf8')` throws). -/
theorem C10_undefined_document (load : YamlLoad) (r : FileData)
    (hext : r.extension = ".yaml" ∨ r.extension = ".yml")
    (hload : load r.content = .ok none) :
    convertYamlToJson load r.content = .ok none
    ∧ ∃ p, processOASFile load r = .ok p
      ∧ p.processedContent = none
      ∧ (∀ s, ¬(p.processedContent = some s))
      ∧ (∀ apiToken catalogId baseUrl,
          buildUploadRequest p apiToken catalogId baseUrl
            = .error "The first argument must be of type string or an instance of Buffer, ArrayBuffer, or Array or an Array-like Object. Received undefined") := by
  have hconv : convertYamlToJson load r.content = .ok none := by
    simp [convertYamlToJson, hload]
  refine ⟨hconv, ⟨{ content := r.content, extension := r.extension, fileName := r.fileName
                    size := r.size, processedContent := none
                    processedFileName := replaceYamlExt r.fileName }, ?_, rfl, ?_, ?_⟩⟩
  · rcases hext with h | h <;>
      simp [processOASFile, h, hconv, Except.map]
  · intro s hs
    exact Option.noConfusion hs
  · intro apiToken catalogId baseUrl
    rfl

/-- Witness for C10 on the empty YAML file. -/
theorem C10_undefined_document_witness :
    ((".yaml" : String) = ".yaml" ∨ (".yaml" : String) = ".yml")
    ∧ yamlLoadModel "" = .ok none
    ∧ (convertYamlToJson yamlLoadModel "" = .ok none
      ∧ ∃ p, processOASFile yamlLoadModel
            { content := "", extension := ".yaml", fileName := "empty.yaml", size := 0 }
          = .ok p
        ∧ p.processedContent = none
        ∧ (∀ s, ¬(p.processedContent = some s))
        ∧ (∀ apiToken catalogId baseUrl,
            buildUploadRequest p apiToken catalogId baseUrl
              = .error "The first argument must be of type string or an instance of Buffer, ArrayBuffer, or Array or an Array-like Object. Received undefined")) :=
  ⟨Or.inl rfl, rfl,
    C10_undefined_document yamlLoadModel
      { content := "", extension := ".yaml", fileName := "empty.yaml", size := 0 }
      (Or.inl rfl) rfl⟩

end OasSync
